import Mathlib

/-!
Shallow embedding of the todo MVC application in `src/script.js`:
the Model's list operations, the persistence/event effects of each
mutation, the Controller's handlers, and Model construction.
-/

namespace Todo

/-- A todo item, with the shape `{ id, text, complete }` built in
`Controller.handleAddTodo` (script.js lines 217-221). -/
structure Task where
  id : Nat
  text : String
  complete : Bool
deriving DecidableEq, Repr

/-- List update of `Model.addTodo` (line 42):
`this.todos = [...this.todos, todo]`. -/
def addTodo (todo : Task) (todos : List Task) : List Task :=
  todos ++ [todo]

/-- List update of `Model.editTodo` (lines 49-51): `this.todos.map(todo =>
todo.id === id ? \x7b id: todo.id, text: updatedText, complete: todo.complete \x7d : todo)`. -/
def editTodo (id : Nat) (updatedText : String) (todos : List Task) : List Task :=
  todos.map fun todo =>
    if todo.id = id then { id := todo.id, text := updatedText, complete := todo.complete }
    else todo

/-- List update of `Model.deleteTodo` (line 58):
`this.todos.filter(todo => todo.id !== id)`. -/
def deleteTodo (id : Nat) (todos : List Task) : List Task :=
  todos.filter fun todo => todo.id ≠ id

/-- List update of `Model.toggleTodo` (lines 65-67): `this.todos.map(todo =>
todo.id === id ? \x7b id: todo.id, text: todo.text, complete: !todo.complete \x7d : todo)`. -/
def toggleTodo (id : Nat) (todos : List Task) : List Task :=
  todos.map fun todo =>
    if todo.id = id then { id := todo.id, text := todo.text, complete := !todo.complete }
    else todo

/-- One observable effect of a Model mutation: a `localStorage.setItem`
(its serialized string payload abstracted by the list being serialized,
since `Model.update` always writes `JSON.stringify(this.todos)`), or an
EventEmitter `emit` with its payload. -/
inductive Action where
  | setItem (key : String) (value : List Task)
  | emit (eventName : String) (payload : List Task)
deriving DecidableEq, Repr

/-- `Model.addTodo` (lines 41-46) with its effects in order: the list
update, then `this.update()` — `localStorage.setItem('todos',
JSON.stringify(this.todos))` (line 74) — then
`this.emit('todoListChanged', this.todos)`. -/
def addTodoM (todo : Task) (todos : List Task) : List Task × List Action :=
  let todos2 := addTodo todo todos
  (todos2, [Action.setItem "todos" todos2, Action.emit "todoListChanged" todos2])

/-- `Model.editTodo` (lines 48-55) with its effects in order. -/
def editTodoM (id : Nat) (updatedText : String) (todos : List Task) :
    List Task × List Action :=
  let todos2 := editTodo id updatedText todos
  (todos2, [Action.setItem "todos" todos2, Action.emit "todoListChanged" todos2])

/-- `Model.deleteTodo` (lines 57-62) with its effects in order. -/
def deleteTodoM (id : Nat) (todos : List Task) : List Task × List Action :=
  let todos2 := deleteTodo id todos
  (todos2, [Action.setItem "todos" todos2, Action.emit "todoListChanged" todos2])

/-- `Model.toggleTodo` (lines 64-71) with its effects in order. -/
def toggleTodoM (id : Nat) (todos : List Task) : List Task × List Action :=
  let todos2 := toggleTodo id todos
  (todos2, [Action.setItem "todos" todos2, Action.emit "todoListChanged" todos2])

/-- The id computed in `Controller.handleAddTodo` (line 218):
`this.model.todos.length > 0 ? this.model.todos[this.model.todos.length - 1].id + 1 : 1`,
the id of the last element plus one (not a maximum scan). -/
def nextId (todos : List Task) : Nat :=
  match todos.getLast? with
  | none => 1
  | some t => t.id + 1

/-- The true maximum id of the list (0 when empty). Modelled from the
spec's words "max existing id", for comparison with the source's `nextId`. -/
def maxId (todos : List Task) : Nat :=
  todos.foldr (fun t m => max t.id m) 0

/-- `Controller.handleAddTodo` (lines 213-226) as a function of the input
field text and the current list: `if (this.view.todoText)` — a JS string
is truthy exactly when it is non-empty — build the task with `nextId`,
text `todoText`, `complete: false`, and append it via `Model.addTodo`. -/
def handleAddTodo (todoText : String) (todos : List Task) : List Task :=
  if todoText ≠ "" then
    addTodo { id := nextId todos, text := todoText, complete := false } todos
  else
    todos

/-- `Controller.handleEditTodoComplete` (lines 234-241) as a function of
the captured `temporaryEditValue`, the id parsed from the row, and the
current list: `if (this.temporaryEditValue)` — truthy exactly when
non-empty — then `this.model.editTodo(id, this.temporaryEditValue)`. -/
def handleEditTodoComplete (temporaryEditValue : String) (id : Nat)
    (todos : List Task) : List Task :=
  if temporaryEditValue ≠ "" then editTodo id temporaryEditValue todos else todos

/-- States of the Model's list reachable through the Controller handlers
starting from the empty list: `handleAddTodo`, `handleEditTodoComplete`,
and `handleDeleteTodo` / `handleToggle`, which call `Model.deleteTodo` /
`Model.toggleTodo` with the id parsed from the clicked row. -/
inductive Reachable : List Task → Prop where
  | init : Reachable []
  | add (todoText : String) (todos : List Task) :
      Reachable todos → Reachable (handleAddTodo todoText todos)
  | edit (temporaryEditValue : String) (id : Nat) (todos : List Task) :
      Reachable todos → Reachable (handleEditTodoComplete temporaryEditValue id todos)
  | delete (id : Nat) (todos : List Task) :
      Reachable todos → Reachable (deleteTodo id todos)
  | toggle (id : Nat) (todos : List Task) :
      Reachable todos → Reachable (toggleTodo id todos)

/-- Result of a successful `JSON.parse` in the Model constructor: an
array of tasks, or some falsy value (such as `null`, which
`JSON.parse("null")` returns), which the `|| []` fallback replaces by the
empty list. -/
inductive ParsedValue where
  | listVal (todos : List Task)
  | falsy
deriving DecidableEq, Repr

/-- `Model.constructor` (lines 34-37): `this.todos =
JSON.parse(localStorage.getItem('todos')) || []`. `localStorage.getItem`
returns `null` when nothing is stored (`stored = none`); `JSON.parse`
then coerces `null` to the string "null" and returns the falsy value
`null`, so the list starts empty. `parse s = none` models `JSON.parse`
throwing on invalid JSON; the constructor has no try/catch, so the
exception propagates and construction aborts (`Except.error ()`). -/
def modelConstructor (parse : String → Option ParsedValue) (stored : Option String) :
    Except Unit (List Task) :=
  match stored with
  | none => Except.ok []
  | some s =>
    match parse s with
    | none => Except.error ()
    | some ParsedValue.falsy => Except.ok []
    | some (ParsedValue.listVal todos) => Except.ok todos

/-! Helper lemmas shared by several claims. -/

/-- The map function of `editTodo` keeps every task's id. -/
lemma editTodo_preserves_id (id : Nat) (s : String) (x : Task) :
    (if x.id = id then { id := x.id, text := s, complete := x.complete } else x).id = x.id := by
  split <;> rfl

/-- The map function of `toggleTodo` keeps every task's id. -/
lemma toggleTodo_preserves_id (id : Nat) (x : Task) :
    (if x.id = id then { id := x.id, text := x.text, complete := !x.complete } else x).id = x.id := by
  split <;> rfl

/-- In a list with strictly increasing ids, every id is below `nextId`. -/
lemma id_lt_nextId_of_mem (todos : List Task)
    (h : todos.Pairwise (fun a b => a.id < b.id)) :
    ∀ a ∈ todos, a.id < nextId todos := by
  induction todos with
  | nil => intro a ha; cases ha
  | cons t ts ih =>
    intro a ha
    cases ts with
    | nil =>
      rcases List.mem_singleton.mp ha with rfl
      simp [nextId]
    | cons u us =>
      have hnext : nextId (t :: u :: us) = nextId (u :: us) := by
        simp [nextId, List.getLast?_cons_cons]
      rw [hnext]
      rcases List.mem_cons.mp ha with rfl | ha
      · have hu : a.id < u.id := (List.pairwise_cons.mp h).1 u (by simp)
        have := ih (List.pairwise_cons.mp h).2 u (by simp)
        omega
      · exact ih (List.pairwise_cons.mp h).2 a ha

/-- `handleAddTodo` preserves strictly increasing ids. -/
lemma pairwise_lt_handleAddTodo (todoText : String) (todos : List Task)
    (h : todos.Pairwise (fun a b => a.id < b.id)) :
    (handleAddTodo todoText todos).Pairwise (fun a b => a.id < b.id) := by
  unfold handleAddTodo
  split
  · unfold addTodo
    rw [List.pairwise_append]
    refine ⟨h, List.pairwise_singleton _ _, ?_⟩
    intro a ha b hb
    rw [List.mem_singleton.mp hb]
    exact id_lt_nextId_of_mem todos h a ha
  · exact h

/-- `editTodo` preserves strictly increasing ids. -/
lemma pairwise_lt_editTodo (id : Nat) (s : String) (todos : List Task)
    (h : todos.Pairwise (fun a b => a.id < b.id)) :
    (editTodo id s todos).Pairwise (fun a b => a.id < b.id) := by
  unfold editTodo
  rw [List.pairwise_map]
  refine h.imp_of_mem ?_
  intro a b _ _ hab
  rw [editTodo_preserves_id, editTodo_preserves_id]
  exact hab

/-- `toggleTodo` preserves strictly increasing ids. -/
lemma pairwise_lt_toggleTodo (id : Nat) (todos : List Task)
    (h : todos.Pairwise (fun a b => a.id < b.id)) :
    (toggleTodo id todos).Pairwise (fun a b => a.id < b.id) := by
  unfold toggleTodo
  rw [List.pairwise_map]
  refine h.imp_of_mem ?_
  intro a b _ _ hab
  rw [toggleTodo_preserves_id, toggleTodo_preserves_id]
  exact hab

/-- `deleteTodo` preserves strictly increasing ids. -/
lemma pairwise_lt_deleteTodo (id : Nat) (todos : List Task)
    (h : todos.Pairwise (fun a b => a.id < b.id)) :
    (deleteTodo id todos).Pairwise (fun a b => a.id < b.id) :=
  h.sublist (List.filter_sublist todos)

/-- Invariant: every reachable list has strictly increasing ids in list
order (so the last element carries the maximum id). -/
lemma reachable_pairwise_lt (todos : List Task) (h : Reachable todos) :
    todos.Pairwise (fun a b => a.id < b.id) := by
  induction h with
  | init => exact List.Pairwise.nil
  | add todoText todos _ ih => exact pairwise_lt_handleAddTodo todoText todos ih
  | edit temporaryEditValue id todos _ ih =>
    unfold handleEditTodoComplete
    split
    · exact pairwise_lt_editTodo id temporaryEditValue todos ih
    · exact ih
  | delete id todos _ ih => exact pairwise_lt_deleteTodo id todos ih
  | toggle id todos _ ih => exact pairwise_lt_toggleTodo id todos ih

/-- C1: For every reachable state of the system (any sequence of add,
edit, toggle, and delete operations performed through the Controller
handlers, starting from an empty list), the task ids in the Model's list
are pairwise distinct at all times. -/
theorem reachable_ids_pairwise_distinct (todos : List Task) (h : Reachable todos) :
    todos.Pairwise (fun a b => a.id ≠ b.id) :=
  (reachable_pairwise_lt todos h).imp fun hlt => Nat.ne_of_lt hlt

/-- Witness for C1: the list obtained by adding "a" then "b" from the
empty list is reachable and has pairwise distinct ids. -/
theorem reachable_ids_pairwise_distinct_witness :
    List.Pairwise (fun a b => a.id ≠ b.id)
      [({ id := 1, text := "a", complete := false } : Task),
       ({ id := 2, text := "b", complete := false } : Task)] := by
  have h0 : Reachable [] := Reachable.init
  have h1 := Reachable.add "a" [] h0
  have h2 := Reachable.add "b" _ h1
  have e1 : handleAddTodo "a" [] = [({ id := 1, text := "a", complete := false } : Task)] := by
    decide
  rw [e1] at h1 h2
  have e2 : handleAddTodo "b" [({ id := 1, text := "a", complete := false } : Task)] =
      [({ id := 1, text := "a", complete := false } : Task),
       ({ id := 2, text := "b", complete := false } : Task)] := by
    decide
  rw [e2] at h2
  exact reachable_ids_pairwise_distinct _ h2

/-- Every id in the list is bounded by `maxId`. -/
lemma id_le_maxId_of_mem (todos : List Task) :
    ∀ a ∈ todos, a.id ≤ maxId todos := by
  induction todos with
  | nil => intro a ha; cases ha
  | cons t ts ih =>
    intro a ha
    have hmax : maxId (t :: ts) = max t.id (maxId ts) := rfl
    rcases List.mem_cons.mp ha with rfl | ha
    · rw [hmax]; exact Nat.le_max_left _ _
    · rw [hmax]; exact Nat.le_trans (ih a ha) (Nat.le_max_right _ _)

/-- When ids strictly increase in list order, the source's last-element
heuristic agrees with a true maximum scan. -/
lemma nextId_eq_maxId_succ_of_pairwise (todos : List Task)
    (h : todos.Pairwise (fun a b => a.id < b.id)) :
    nextId todos = maxId todos + 1 := by
  induction todos with
  | nil => rfl
  | cons t ts ih =>
    cases ts with
    | nil => simp [nextId, maxId]
    | cons u us =>
      have hnext : nextId (t :: u :: us) = nextId (u :: us) := by
        simp [nextId, List.getLast?_cons_cons]
      have hle : t.id ≤ maxId (u :: us) := by
        have hu : t.id < u.id := (List.pairwise_cons.mp h).1 u (by simp)
        have := id_le_maxId_of_mem (u :: us) u (by simp)
        omega
      have hmax : maxId (t :: u :: us) = max t.id (maxId (u :: us)) := rfl
      rw [hnext, hmax, Nat.max_eq_right hle]
      exact ih (List.pairwise_cons.mp h).2

/-- Counterexample for C2: on the list `[{id 2}, {id 1}]` the add handler
would assign id `2` (last element's id plus one), not the maximum id plus
one, which is `3`. -/
theorem nextId_ne_maxId_succ_counterexample :
    nextId [({ id := 2, text := "a", complete := false } : Task),
            ({ id := 1, text := "b", complete := false } : Task)] ≠
      maxId [({ id := 2, text := "a", complete := false } : Task),
             ({ id := 1, text := "b", complete := false } : Task)] + 1 := by
  decide

/-- C2 (amended): for every list reachable through the Controller
handlers, the id the add handler assigns (`nextId`, the last element's id
plus one) equals the maximum id among the existing tasks plus 1, and
equals 1 when the list is empty; on arbitrary lists the handler uses the
last element's id, not a maximum scan. -/
theorem nextId_eq_maxId_succ_of_reachable (todos : List Task) (h : Reachable todos) :
    nextId todos = maxId todos + 1 ∧ (todos = [] → nextId todos = 1) := by
  refine ⟨nextId_eq_maxId_succ_of_pairwise todos (reachable_pairwise_lt todos h), ?_⟩
  intro he
  rw [he]
  rfl

/-- Witness for C2 (amended), at the reachable list `[{id 1, "a"}]`. -/
theorem nextId_eq_maxId_succ_of_reachable_witness :
    nextId [({ id := 1, text := "a", complete := false } : Task)] =
      maxId [({ id := 1, text := "a", complete := false } : Task)] + 1 ∧
    ([({ id := 1, text := "a", complete := false } : Task)] = ([] : List Task) →
      nextId [({ id := 1, text := "a", complete := false } : Task)] = 1) := by
  have h1 := Reachable.add "a" [] Reachable.init
  have e1 : handleAddTodo "a" [] = [({ id := 1, text := "a", complete := false } : Task)] := by
    decide
  rw [e1] at h1
  exact nextId_eq_maxId_succ_of_reachable _ h1

/-- C3: every Model mutation (addTodo, editTodo, deleteTodo, toggleTodo)
first writes the full new list to storage under the fixed key "todos" and
then emits exactly one `todoListChanged` event whose payload is the full
current list — never a delta, never zero or multiple notifications. -/
theorem mutation_trace_write_then_emit (todo : Task) (id : Nat) (s : String)
    (todos : List Task) :
    (addTodoM todo todos).2 =
      [Action.setItem "todos" (addTodoM todo todos).1,
       Action.emit "todoListChanged" (addTodoM todo todos).1] ∧
    (editTodoM id s todos).2 =
      [Action.setItem "todos" (editTodoM id s todos).1,
       Action.emit "todoListChanged" (editTodoM id s todos).1] ∧
    (deleteTodoM id todos).2 =
      [Action.setItem "todos" (deleteTodoM id todos).1,
       Action.emit "todoListChanged" (deleteTodoM id todos).1] ∧
    (toggleTodoM id todos).2 =
      [Action.setItem "todos" (toggleTodoM id todos).1,
       Action.emit "todoListChanged" (toggleTodoM id todos).1] :=
  ⟨rfl, rfl, rfl, rfl⟩

/-- When no task has the given id, `editTodo` is the identity. -/
lemma editTodo_eq_self (id : Nat) (s : String) (todos : List Task)
    (h : ∀ t ∈ todos, t.id ≠ id) : editTodo id s todos = todos := by
  induction todos with
  | nil => rfl
  | cons t ts ih =>
    unfold editTodo
    rw [List.map_cons, if_neg (h t (by simp))]
    have : editTodo id s ts = ts := ih fun x hx => h x (List.mem_cons_of_mem t hx)
    unfold editTodo at this
    rw [this]

/-- When no task has the given id, `toggleTodo` is the identity. -/
lemma toggleTodo_eq_self (id : Nat) (todos : List Task)
    (h : ∀ t ∈ todos, t.id ≠ id) : toggleTodo id todos = todos := by
  induction todos with
  | nil => rfl
  | cons t ts ih =>
    unfold toggleTodo
    rw [List.map_cons, if_neg (h t (by simp))]
    have : toggleTodo id ts = ts := ih fun x hx => h x (List.mem_cons_of_mem t hx)
    unfold toggleTodo at this
    rw [this]

/-- When no task has the given id, `deleteTodo` is the identity. -/
lemma deleteTodo_eq_self (id : Nat) (todos : List Task)
    (h : ∀ t ∈ todos, t.id ≠ id) : deleteTodo id todos = todos := by
  unfold deleteTodo
  rw [List.filter_eq_self]
  intro a ha
  exact decide_eq_true (h a ha)

/-- C5: for every id not present in the list, `editTodo`, `deleteTodo`
and `toggleTodo` leave the task list unchanged, surface no error, and
still perform the full persistence write and emit the change
notification. -/
theorem missing_id_noop_still_persists_emits (id : Nat) (s : String)
    (todos : List Task) (h : ∀ t ∈ todos, t.id ≠ id) :
    editTodoM id s todos =
      (todos, [Action.setItem "todos" todos, Action.emit "todoListChanged" todos]) ∧
    deleteTodoM id todos =
      (todos, [Action.setItem "todos" todos, Action.emit "todoListChanged" todos]) ∧
    toggleTodoM id todos =
      (todos, [Action.setItem "todos" todos, Action.emit "todoListChanged" todos]) := by
  have he := editTodo_eq_self id s todos h
  have hd := deleteTodo_eq_self id todos h
  have ht := toggleTodo_eq_self id todos h
  refine ⟨?_, ?_, ?_⟩
  · unfold editTodoM; rw [he]
  · unfold deleteTodoM; rw [hd]
  · unfold toggleTodoM; rw [ht]

/-- Witness for C5: id 2 is absent from `[{id 1, "a"}]`; all three
mutations leave the list as is and still write then emit. -/
theorem missing_id_noop_still_persists_emits_witness :
    editTodoM 2 "x" [({ id := 1, text := "a", complete := false } : Task)] =
      ([({ id := 1, text := "a", complete := false } : Task)],
       [Action.setItem "todos" [({ id := 1, text := "a", complete := false } : Task)],
        Action.emit "todoListChanged" [({ id := 1, text := "a", complete := false } : Task)]]) ∧
    deleteTodoM 2 [({ id := 1, text := "a", complete := false } : Task)] =
      ([({ id := 1, text := "a", complete := false } : Task)],
       [Action.setItem "todos" [({ id := 1, text := "a", complete := false } : Task)],
        Action.emit "todoListChanged" [({ id := 1, text := "a", complete := false } : Task)]]) ∧
    toggleTodoM 2 [({ id := 1, text := "a", complete := false } : Task)] =
      ([({ id := 1, text := "a", complete := false } : Task)],
       [Action.setItem "todos" [({ id := 1, text := "a", complete := false } : Task)],
        Action.emit "todoListChanged" [({ id := 1, text := "a", complete := false } : Task)]]) :=
  missing_id_noop_still_persists_emits 2 "x"
    [({ id := 1, text := "a", complete := false } : Task)] (by decide)

/-- Invariant: every reachable list contains only tasks with non-empty
text, because the truthiness guards in `handleAddTodo` and
`handleEditTodoComplete` reject exactly the empty string. -/
lemma reachable_text_ne_empty (todos : List Task) (h : Reachable todos) :
    ∀ t ∈ todos, t.text ≠ "" := by
  induction h with
  | init => intro t ht; cases ht
  | add todoText todos _ ih =>
    intro t ht
    unfold handleAddTodo at ht
    by_cases hne : todoText ≠ ""
    · rw [if_pos hne] at ht
      unfold addTodo at ht
      rcases List.mem_append.mp ht with hmem | hmem
      · exact ih t hmem
      · rcases List.mem_singleton.mp hmem with rfl
        exact hne
    · rw [if_neg hne] at ht
      exact ih t ht
  | edit temporaryEditValue id todos _ ih =>
    intro t ht
    unfold handleEditTodoComplete at ht
    by_cases hne : temporaryEditValue ≠ ""
    · rw [if_pos hne] at ht
      unfold editTodo at ht
      rcases List.mem_map.mp ht with ⟨x, hx, rfl⟩
      by_cases hid : x.id = id
      · rw [if_pos hid]; exact hne
      · rw [if_neg hid]; exact ih x hx
    · rw [if_neg hne] at ht
      exact ih t ht
  | delete id todos _ ih =>
    intro t ht
    exact ih t ((List.mem_filter.mp ht).1)
  | toggle id todos _ ih =>
    intro t ht
    unfold toggleTodo at ht
    rcases List.mem_map.mp ht with ⟨x, hx, rfl⟩
    by_cases hid : x.id = id
    · rw [if_pos hid]; exact ih x hx
    · rw [if_neg hid]; exact ih x hx

/-- Counterexample for C4: the input `" "` is whitespace-only, yet the
add handler creates a task carrying that text — the truthiness guard
`if (this.view.todoText)` rejects only the empty string. -/
theorem whitespace_add_counterexample :
    (" ").data.all Char.isWhitespace = true ∧
    handleAddTodo " " [] = [({ id := 1, text := " ", complete := false } : Task)] := by
  decide

/-- C4 (amended): creation and edit reject exactly the empty input at the
UI boundary: on empty input the add handler creates no task (silently)
and the edit-commit handler performs no edit, so every task text in a
reachable list is a non-empty string; whitespace-only but non-empty input
is accepted, so a task text may consist only of whitespace. -/
theorem empty_input_rejected (todoText : String) (id : Nat) (todos : List Task)
    (h : Reachable todos) :
    handleAddTodo "" todos = todos ∧
    handleEditTodoComplete "" id todos = todos ∧
    (todoText ≠ "" → handleAddTodo todoText todos =
      todos ++ [{ id := nextId todos, text := todoText, complete := false }]) ∧
    ∀ t ∈ todos, t.text ≠ "" := by
  refine ⟨?_, ?_, ?_, reachable_text_ne_empty todos h⟩
  · unfold handleAddTodo
    rw [if_neg (by simp)]
  · unfold handleEditTodoComplete
    rw [if_neg (by simp)]
  · intro hne
    unfold handleAddTodo
    rw [if_pos hne]
    rfl

/-- Witness for C4 (amended), at the reachable list `[{id 1, "a"}]` and
the whitespace-only input `" "`. -/
theorem empty_input_rejected_witness :
    handleAddTodo "" [({ id := 1, text := "a", complete := false } : Task)] =
      [({ id := 1, text := "a", complete := false } : Task)] ∧
    handleEditTodoComplete "" 1 [({ id := 1, text := "a", complete := false } : Task)] =
      [({ id := 1, text := "a", complete := false } : Task)] ∧
    (" " ≠ "" → handleAddTodo " " [({ id := 1, text := "a", complete := false } : Task)] =
      [({ id := 1, text := "a", complete := false } : Task)] ++
        [{ id := nextId [({ id := 1, text := "a", complete := false } : Task)],
           text := " ", complete := false }]) ∧
    ∀ t ∈ [({ id := 1, text := "a", complete := false } : Task)], t.text ≠ "" := by
  have h1 := Reachable.add "a" [] Reachable.init
  have e1 : handleAddTodo "a" [] = [({ id := 1, text := "a", complete := false } : Task)] := by
    decide
  rw [e1] at h1
  exact empty_input_rejected " " 1 _ h1

/-- C6: for every list containing a task with the given id, `editTodo`
preserves length and order, and pointwise: ids and completion flags are
preserved everywhere, every task whose id matches gets the new text, and
every non-matching task is unchanged on all fields. -/
theorem editTodo_frame (id : Nat) (s : String) (todos : List Task)
    (h : ∃ x ∈ todos, x.id = id) :
    (editTodo id s todos).length = todos.length ∧
    List.Forall₂ (fun x y => y.id = x.id ∧ y.complete = x.complete ∧
        (x.id = id → y.text = s) ∧ (x.id ≠ id → y = x))
      todos (editTodo id s todos) := by
  clear h
  constructor
  · unfold editTodo
    exact List.length_map _ _
  · unfold editTodo
    rw [List.forall₂_map_right_iff, List.forall₂_same]
    intro x _
    by_cases hid : x.id = id
    · rw [if_pos hid]
      exact ⟨rfl, rfl, fun _ => rfl, fun hne => absurd hid hne⟩
    · rw [if_neg hid]
      exact ⟨rfl, rfl, fun heq => absurd heq hid, fun _ => rfl⟩

/-- Witness for C6, editing id 1 to "z" in `[{id 1, "a"}, {id 2, "b"}]`. -/
theorem editTodo_frame_witness :
    (editTodo 1 "z" [({ id := 1, text := "a", complete := false } : Task),
                     ({ id := 2, text := "b", complete := true } : Task)]).length =
      ([({ id := 1, text := "a", complete := false } : Task),
        ({ id := 2, text := "b", complete := true } : Task)]).length ∧
    List.Forall₂ (fun x y => y.id = x.id ∧ y.complete = x.complete ∧
        (x.id = 1 → y.text = "z") ∧ (x.id ≠ 1 → y = x))
      [({ id := 1, text := "a", complete := false } : Task),
       ({ id := 2, text := "b", complete := true } : Task)]
      (editTodo 1 "z" [({ id := 1, text := "a", complete := false } : Task),
                       ({ id := 2, text := "b", complete := true } : Task)]) :=
  editTodo_frame 1 "z" _
    ⟨({ id := 1, text := "a", complete := false } : Task), by simp, rfl⟩

/-- With pairwise-distinct ids, deleting a present id removes exactly one
task. -/
lemma length_deleteTodo_of_mem (id : Nat) (todos : List Task)
    (hnd : (todos.map Task.id).Nodup) (hmem : ∃ x ∈ todos, x.id = id) :
    (deleteTodo id todos).length + 1 = todos.length := by
  induction todos with
  | nil => rcases hmem with ⟨x, hx, _⟩; cases hx
  | cons t ts ih =>
    rw [List.map_cons, List.nodup_cons] at hnd
    by_cases ht : t.id = id
    · have hdrop : deleteTodo id (t :: ts) = deleteTodo id ts := by
        unfold deleteTodo
        exact List.filter_cons_of_neg (by simp [ht])
      have hrest : deleteTodo id ts = ts := by
        refine deleteTodo_eq_self id ts ?_
        intro x hx hxid
        apply hnd.1
        rw [ht, ← hxid]
        exact List.mem_map_of_mem Task.id hx
      rw [hdrop, hrest, List.length_cons]
    · have hkeep : deleteTodo id (t :: ts) = t :: deleteTodo id ts := by
        unfold deleteTodo
        exact List.filter_cons_of_pos (by simp [ht])
      rcases hmem with ⟨x, hx, hxid⟩
      rcases List.mem_cons.mp hx with rfl | hx
      · exact absurd hxid ht
      · rw [hkeep, List.length_cons, List.length_cons]
        rw [ih hnd.2 ⟨x, hx, hxid⟩]

/-- Counterexample for C7: in a list where two tasks share id 1,
`deleteTodo 1` removes both, so the length drops by 2, not by exactly 1. -/
theorem deleteTodo_duplicate_id_counterexample :
    (∃ x ∈ [({ id := 1, text := "a", complete := false } : Task),
            ({ id := 1, text := "b", complete := false } : Task)], x.id = 1) ∧
    (deleteTodo 1 [({ id := 1, text := "a", complete := false } : Task),
                   ({ id := 1, text := "b", complete := false } : Task)]).length ≠
      ([({ id := 1, text := "a", complete := false } : Task),
        ({ id := 1, text := "b", complete := false } : Task)]).length - 1 := by
  decide

/-- C7 (amended): on lists with pairwise-distinct ids (as every reachable
list has), `deleteTodo id` reduces the length by exactly 1 when a task
with that id is present and by 0 otherwise; the result is a sublist of
the original (no other task is altered or reordered) and retains every
non-matching task. On lists with duplicate ids it removes all matching
tasks. -/
theorem deleteTodo_length_of_nodup (id : Nat) (todos : List Task)
    (hnd : (todos.map Task.id).Nodup) :
    ((∃ x ∈ todos, x.id = id) → (deleteTodo id todos).length + 1 = todos.length) ∧
    ((∀ x ∈ todos, x.id ≠ id) → deleteTodo id todos = todos) ∧
    List.Sublist (deleteTodo id todos) todos ∧
    (∀ x ∈ todos, x.id ≠ id → x ∈ deleteTodo id todos) := by
  refine ⟨length_deleteTodo_of_mem id todos hnd, deleteTodo_eq_self id todos,
    List.filter_sublist todos, ?_⟩
  intro x hx hne
  unfold deleteTodo
  rw [List.mem_filter]
  exact ⟨hx, decide_eq_true hne⟩

/-- Witness for C7 (amended), deleting id 1 from `[{id 1}, {id 2}]`. -/
theorem deleteTodo_length_of_nodup_witness :
    ((∃ x ∈ [({ id := 1, text := "a", complete := false } : Task),
             ({ id := 2, text := "b", complete := true } : Task)], x.id = 1) →
      (deleteTodo 1 [({ id := 1, text := "a", complete := false } : Task),
                     ({ id := 2, text := "b", complete := true } : Task)]).length + 1 =
        ([({ id := 1, text := "a", complete := false } : Task),
          ({ id := 2, text := "b", complete := true } : Task)]).length) ∧
    ((∀ x ∈ [({ id := 1, text := "a", complete := false } : Task),
             ({ id := 2, text := "b", complete := true } : Task)], x.id ≠ 1) →
      deleteTodo 1 [({ id := 1, text := "a", complete := false } : Task),
                    ({ id := 2, text := "b", complete := true } : Task)] =
        [({ id := 1, text := "a", complete := false } : Task),
         ({ id := 2, text := "b", complete := true } : Task)]) ∧
    List.Sublist (deleteTodo 1 [({ id := 1, text := "a", complete := false } : Task),
                                ({ id := 2, text := "b", complete := true } : Task)])
      [({ id := 1, text := "a", complete := false } : Task),
       ({ id := 2, text := "b", complete := true } : Task)] ∧
    (∀ x ∈ [({ id := 1, text := "a", complete := false } : Task),
            ({ id := 2, text := "b", complete := true } : Task)], x.id ≠ 1 →
      x ∈ deleteTodo 1 [({ id := 1, text := "a", complete := false } : Task),
                        ({ id := 2, text := "b", complete := true } : Task)]) :=
  deleteTodo_length_of_nodup 1
    [({ id := 1, text := "a", complete := false } : Task),
     ({ id := 2, text := "b", complete := true } : Task)] (by decide)

/-- The map function of `toggleTodo` is an involution on tasks. -/
lemma toggleTodo_fun_involutive (id : Nat) (x : Task) :
    (fun todo : Task =>
      if todo.id = id then { id := todo.id, text := todo.text, complete := !todo.complete }
      else todo)
    ((fun todo : Task =>
      if todo.id = id then { id := todo.id, text := todo.text, complete := !todo.complete }
      else todo) x) = x := by
  by_cases hid : x.id = id
  · cases x
    simp_all
  · simp only [if_neg hid]

/-- C8: for every list containing a task with the given id, `toggleTodo`
flips exactly the matching tasks' complete field — ids and texts are
preserved, non-matching tasks are unchanged on all fields — and applying
`toggleTodo id` twice returns a list value-equal to the original. -/
theorem toggleTodo_flips_and_involutive (id : Nat) (todos : List Task)
    (h : ∃ x ∈ todos, x.id = id) :
    List.Forall₂ (fun x y => y.id = x.id ∧ y.text = x.text ∧
        (x.id = id → y.complete = !x.complete) ∧ (x.id ≠ id → y = x))
      todos (toggleTodo id todos) ∧
    toggleTodo id (toggleTodo id todos) = todos := by
  clear h
  constructor
  · unfold toggleTodo
    rw [List.forall₂_map_right_iff, List.forall₂_same]
    intro x _
    by_cases hid : x.id = id
    · rw [if_pos hid]
      exact ⟨rfl, rfl, fun _ => rfl, fun hne => absurd hid hne⟩
    · rw [if_neg hid]
      exact ⟨rfl, rfl, fun heq => absurd heq hid, fun _ => rfl⟩
  · unfold toggleTodo
    rw [List.map_map]
    have hcongr : todos.map ((fun todo : Task =>
        if todo.id = id then { id := todo.id, text := todo.text, complete := !todo.complete }
        else todo) ∘ (fun todo : Task =>
        if todo.id = id then { id := todo.id, text := todo.text, complete := !todo.complete }
        else todo)) = todos.map (fun x => x) :=
      List.map_congr_left fun x _ => toggleTodo_fun_involutive id x
    rw [hcongr, List.map_id']

/-- Witness for C8, toggling id 2 on `[{id 2, "a", false}]`. -/
theorem toggleTodo_flips_and_involutive_witness :
    List.Forall₂ (fun x y => y.id = x.id ∧ y.text = x.text ∧
        (x.id = 2 → y.complete = !x.complete) ∧ (x.id ≠ 2 → y = x))
      [({ id := 2, text := "a", complete := false } : Task)]
      (toggleTodo 2 [({ id := 2, text := "a", complete := false } : Task)]) ∧
    toggleTodo 2 (toggleTodo 2 [({ id := 2, text := "a", complete := false } : Task)]) =
      [({ id := 2, text := "a", complete := false } : Task)] :=
  toggleTodo_flips_and_involutive 2 _
    ⟨({ id := 2, text := "a", complete := false } : Task), by simp, rfl⟩

/-- C9: at Model construction, if no value is stored under the key the
list is initialized empty; if the stored value is not valid serialized
JSON (the parse throws), the failure propagates unguarded and
construction of the Model aborts with no fallback to an empty list. -/
theorem modelConstructor_empty_or_abort (parse : String → Option ParsedValue) :
    modelConstructor parse none = Except.ok [] ∧
    ∀ s : String, parse s = none → modelConstructor parse (some s) = Except.error () := by
  refine ⟨rfl, ?_⟩
  intro s hs
  simp only [modelConstructor, hs]

/-- Witness for C9, with a parse function on which every string fails. -/
theorem modelConstructor_empty_or_abort_witness :
    modelConstructor (fun _ => none) none = Except.ok [] ∧
    modelConstructor (fun _ => none) (some "not json") = Except.error () := by
  obtain ⟨h1, h2⟩ := modelConstructor_empty_or_abort (fun _ => none)
  exact ⟨h1, h2 "not json" rfl⟩

/-- C10: `deleteTodo id` removes every task whose id equals the given id,
not at most one: no task of the result bears the id, and the length
decreases by the number of tasks bearing that id. -/
theorem deleteTodo_removes_all_matching (id : Nat) (todos : List Task) :
    (∀ x ∈ deleteTodo id todos, x.id ≠ id) ∧
    (deleteTodo id todos).length + todos.countP (fun x => x.id == id) = todos.length := by
  constructor
  · intro x hx
    unfold deleteTodo at hx
    exact of_decide_eq_true (List.mem_filter.mp hx).2
  · induction todos with
    | nil => rfl
    | cons t ts ih =>
      by_cases ht : t.id = id
      · have hdrop : deleteTodo id (t :: ts) = deleteTodo id ts := by
          unfold deleteTodo
          exact List.filter_cons_of_neg (by simp [ht])
        rw [hdrop, List.countP_cons_of_pos _ _ (by simp [ht]), List.length_cons]
        omega
      · have hkeep : deleteTodo id (t :: ts) = t :: deleteTodo id ts := by
          unfold deleteTodo
          exact List.filter_cons_of_pos (by simp [ht])
        rw [hkeep, List.countP_cons_of_neg _ _ (by simp [ht]), List.length_cons,
          List.length_cons]
        omega

end Todo
